import Mathlib

/-!
Verification of the Ditter.io image pipeline and canvas engine.

This file gives a shallow embedding of the pixel algorithms of
`src/components/EffectEngine.jsx` (Atkinson dithering and accent-color
remapping), the camera logic of `src/App.jsx` (wheel zoom, pan, zoom reset),
and the drag handlers of `src/components/PhysicsElement.jsx`, and proves the
testable properties stated in the specification.

Modelling conventions:
- A pixel buffer (the `data` field of a DOM `ImageData`) is modelled as a
  total map `Nat → ℚ`; a JavaScript store `data[i] = v` is the functional
  update `upd`.  Numeric values are exact rationals (the algorithms only use
  +, -, *, / and comparisons on decimal literals, all exact in `ℚ`).
- A DOM `ImageData` always satisfies `data.length = width * height * 4`;
  loops bounded by `data.length` with stride 4 are therefore folds over
  `List.range (width * height)`.
-/

namespace Ditter

/-- Functional store: JavaScript `data[i] = v` on a buffer. -/
def upd (d : Nat → ℚ) (i : Nat) (v : ℚ) : Nat → ℚ :=
  fun j => if j = i then v else d j

/-- `Math.max(0, Math.min(255, v))` — EffectEngine.jsx line 88. -/
def clamp255 (v : ℚ) : ℚ := max 0 (min 255 v)

/-- A raw bitmap: the mutable `ImageData` object (width, height, RGBA buffer). -/
@[ext]
structure ImageData where
  width : Nat
  height : Nat
  data : Nat → ℚ

/-- Parsed color components, as produced by `hexToRgb` (EffectEngine.jsx 114-121). -/
structure Rgb where
  r : Nat
  g : Nat
  b : Nat
deriving DecidableEq

/-- BT.601 luminance read at pixel base index `i`:
`data[i]*0.299 + data[i+1]*0.587 + data[i+2]*0.114` (EffectEngine.jsx line 54). -/
def lumaAt (d : Nat → ℚ) (i : Nat) : ℚ :=
  d i * (299/1000) + d (i + 1) * (587/1000) + d (i + 2) * (114/1000)

/-- One iteration of the grayscale loop (EffectEngine.jsx lines 52-56):
`data[i] = data[i+1] = data[i+2] = luma` for pixel `p` (base index `i = 4*p`). -/
def grayscaleStep (d : Nat → ℚ) (p : Nat) : Nat → ℚ :=
  upd (upd (upd d (4 * p) (lumaAt d (4 * p))) (4 * p + 1) (lumaAt d (4 * p)))
    (4 * p + 2) (lumaAt d (4 * p))

/-- The grayscale pass: `for (i = 0; i < data.length; i += 4)`, i.e. one
`grayscaleStep` per pixel, `n = width * height` pixels in total. -/
def grayscalePass (n : Nat) (d : Nat → ℚ) : Nat → ℚ :=
  (List.range n).foldl grayscaleStep d

/-- `newPixel = oldPixel < threshold ? 0 : 255` (EffectEngine.jsx line 64). -/
def quantize (threshold old : ℚ) : ℚ := if old < threshold then 0 else 255

/-- `data[idx] = data[idx+1] = data[idx+2] = newPixel` (EffectEngine.jsx line 66). -/
def setRGB (d : Nat → ℚ) (idx : Nat) (v : ℚ) : Nat → ℚ :=
  upd (upd (upd d idx v) (idx + 1) v) (idx + 2) v

/-- `data[i] += e` (the error-diffusion compound assignments). -/
def addAt (d : Nat → ℚ) (i : Nat) (e : ℚ) : Nat → ℚ := upd d i (d i + e)

/-- The six guarded error-diffusion writes of the Atkinson kernel
(EffectEngine.jsx lines 74-85), with `idx = (y*width + x)*4`:
`idx+4` if `x+1 < width`; `idx+8` if `x+2 < width`;
`idx-4+width*4` if `x-1 >= 0 && y+1 < height`; `idx+width*4` if `y+1 < height`;
`idx+4+width*4` if `x+1 < width && y+1 < height`; `idx+width*8` if `y+2 < height`. -/
def distributeError (w h y x idx : Nat) (ef : ℚ) (d : Nat → ℚ) : Nat → ℚ :=
  let d2 := if x + 1 < w then addAt d (idx + 4) ef else d
  let d3 := if x + 2 < w then addAt d2 (idx + 8) ef else d2
  let d4 := if 1 ≤ x ∧ y + 1 < h then addAt d3 (idx + w * 4 - 4) ef else d3
  let d5 := if y + 1 < h then addAt d4 (idx + w * 4) ef else d4
  let d6 := if x + 1 < w ∧ y + 1 < h then addAt d5 (idx + w * 4 + 4) ef else d5
  if y + 2 < h then addAt d6 (idx + w * 8) ef else d6

/-- The bounds-ensuring loop `for(j=0;j<3;j++) data[idx+j] = clamp(...)`
(EffectEngine.jsx line 88), unrolled. -/
def clampPixel (d : Nat → ℚ) (idx : Nat) : Nat → ℚ :=
  let d1 := upd d idx (clamp255 (d idx))
  let d2 := upd d1 (idx + 1) (clamp255 (d1 (idx + 1)))
  upd d2 (idx + 2) (clamp255 (d2 (idx + 2)))

/-- The body of the dithering double loop for pixel `(x, y)`
(EffectEngine.jsx lines 60-88): quantize, distribute the error, clamp. -/
def ditherStep (w h : Nat) (threshold : ℚ) (d : Nat → ℚ) (y x : Nat) : Nat → ℚ :=
  let idx := (y * w + x) * 4
  let oldPixel := d idx
  let newPixel := quantize threshold oldPixel
  let errorFraction := (oldPixel - newPixel) / 8
  clampPixel (distributeError w h y x idx errorFraction (setRGB d idx newPixel)) idx

/-- The inner loop `for (x = 0; x < width; x++)` over one row `y`. -/
def ditherRow (w h : Nat) (threshold : ℚ) (y : Nat) (d : Nat → ℚ) : Nat → ℚ :=
  (List.range w).foldl (fun dc x => ditherStep w h threshold dc y x) d

/-- The outer loop `for (y = 0; y < height; y++)` (EffectEngine.jsx lines 58-90). -/
def ditherPass (w h : Nat) (threshold : ℚ) (d : Nat → ℚ) : Nat → ℚ :=
  (List.range h).foldl (fun dr y => ditherRow w h threshold y dr) d

/-- `applyAtkinsonDither` (EffectEngine.jsx lines 47-92): grayscale conversion
followed by the raster-order Atkinson error-diffusion pass, in place. -/
def applyAtkinsonDither (img : ImageData) (threshold : ℚ) : ImageData :=
  ⟨img.width, img.height,
    ditherPass img.width img.height threshold
      (grayscalePass (img.width * img.height) img.data)⟩

/-- Truth table of the character class `[a-f\d]` under the `/i` flag of the
regex in `hexToRgb` (EffectEngine.jsx line 115). -/
def hexDigit (c : Char) : Bool :=
  (48 ≤ c.toNat && c.toNat ≤ 57) || (97 ≤ c.toNat && c.toNat ≤ 102) ||
    (65 ≤ c.toNat && c.toNat ≤ 70)

/-- Numeric value of one hex digit, as used by `parseInt(s, 16)`
(meaningful only on characters accepted by `hexDigit`). -/
def hexDigitVal (c : Char) : Nat :=
  if c.toNat ≤ 57 then c.toNat - 48
  else if c.toNat ≤ 70 then c.toNat - 55
  else c.toNat - 87

/-- The `#?` prefix of the regex: the optional leading hash.  (The regex is
deterministic here: when the string starts with `#` the only way the anchored
pattern can match is by consuming it, since `#` is not in `[a-f\d]`.) -/
def stripHash : List Char → List Char
  | [] => []
  | c :: rest => if c = '#' then rest else c :: rest

/-- The anchored body `([a-f\d]{2})([a-f\d]{2})([a-f\d]{2})$` together with
`parseInt(group, 16)` on each captured two-digit group. -/
def matchHexBody : List Char → Option Rgb
  | [c1, c2, c3, c4, c5, c6] =>
    if hexDigit c1 && hexDigit c2 && hexDigit c3 && hexDigit c4 && hexDigit c5 &&
        hexDigit c6 then
      some ⟨16 * hexDigitVal c1 + hexDigitVal c2, 16 * hexDigitVal c3 + hexDigitVal c4,
        16 * hexDigitVal c5 + hexDigitVal c6⟩
    else none
  | _ => none

/-- `hexToRgb` (EffectEngine.jsx lines 114-121): run the regex
`/^#?([a-f\d]{2})([a-f\d]{2})([a-f\d]{2})$/i` and parse the three groups;
on no match return `{r:0, g:0, b:0}`. -/
def hexToRgb (hex : String) : Rgb :=
  match matchHexBody (stripHash hex.data) with
  | some rgb => rgb
  | none => ⟨0, 0, 0⟩

/-- One iteration of the color-map loop (EffectEngine.jsx lines 125-136) for
pixel `p` (base index `i = 4*p`): if `data[i] < 128` write the accent color
and opaque alpha, otherwise only clear the alpha channel. -/
def colorMapStep (fg : Rgb) (d : Nat → ℚ) (p : Nat) : Nat → ℚ :=
  let i := 4 * p
  if d i < 128 then
    upd (upd (upd (upd d i (fg.r : ℚ)) (i + 1) (fg.g : ℚ)) (i + 2) (fg.b : ℚ)) (i + 3) 255
  else
    upd d (i + 3) 0

/-- `applyColorMap` (EffectEngine.jsx lines 110-138): parse the accent color
once, then loop over every pixel. -/
def applyColorMap (img : ImageData) (accentColor : String) : ImageData :=
  ⟨img.width, img.height,
    (List.range (img.width * img.height)).foldl (colorMapStep (hexToRgb accentColor))
      img.data⟩

/-- The draft variant of `applyColorMap` (EffectEngine.jsx lines 298-327): it
additionally receives `bgColor` and parses it (`const bg = hexToRgb(bgColor)`),
but the per-pixel loop never uses `bg`.  An absent (`null`/`undefined`)
`bgColor` is coerced by `exec` to a non-matching string, hence also parses to
black; we model absence with `Option`. -/
def applyColorMapDraft (img : ImageData) (accentColor : String)
    (bgColor : Option String) : ImageData :=
  let fg := hexToRgb accentColor
  let bg := hexToRgb (match bgColor with | some s => s | none => "undefined")
  let _unused := bg
  ⟨img.width, img.height,
    (List.range (img.width * img.height)).foldl (colorMapStep fg) img.data⟩

/-- `MIN_ZOOM` (App.jsx line 15). -/
def MIN_ZOOM : ℚ := 1/10

/-- `MAX_ZOOM` (App.jsx line 16). -/
def MAX_ZOOM : ℚ := 16

/-- `ZOOM_FACTOR` (App.jsx line 17), `1.08`. -/
def ZOOM_FACTOR : ℚ := 27/25

/-- The camera state `{x, y, z}` of App.jsx (translation plus zoom). -/
structure Camera where
  x : ℚ
  y : ℚ
  z : ℚ

/-- World-to-screen transform of the canvas:
`transform: translate(x, y) scale(z)` with origin `0 0` (App.jsx line 375),
i.e. `screen = world * z + translation`. -/
def screenOf (cam : Camera) (world : ℚ × ℚ) : ℚ × ℚ :=
  (world.1 * cam.z + cam.x, world.2 * cam.z + cam.y)

/-- Screen-to-world inverse transform, as used when placing a new asset:
`(window.innerWidth/2 - camera.x) / camera.z` (App.jsx lines 193, 247). -/
def worldOf (cam : Camera) (screen : ℚ × ℚ) : ℚ × ℚ :=
  ((screen.1 - cam.x) / cam.z, (screen.2 - cam.y) / cam.z)

/-- The zoom branch of `handleWheel` (App.jsx lines 113-122): pick the factor
by scroll direction, clamp the next zoom into `[MIN_ZOOM, MAX_ZOOM]`, and
recompute the translation so the cursor point stays fixed. -/
def wheelZoom (cam : Camera) (cx cy : ℚ) (zoomIn : Bool) : Camera :=
  let factor := if zoomIn then ZOOM_FACTOR else 1 / ZOOM_FACTOR
  let next := min MAX_ZOOM (max MIN_ZOOM (cam.z * factor))
  let ratio := next / cam.z
  ⟨cx - (cx - cam.x) * ratio, cy - (cy - cam.y) * ratio, next⟩

/-- The camera operations of App.jsx: wheel/drag pan (lines 124, 221), wheel
zoom (lines 113-122), and the Shift+0 zoom reset (line 137). -/
inductive CamOp
  | pan (dx dy : ℚ)
  | zoomAt (cx cy : ℚ) (zoomIn : Bool)
  | resetZoom

/-- Apply one camera operation.  Pan only translates, zoom uses `wheelZoom`,
reset sets `z = 1` keeping the translation. -/
def applyCamOp (cam : Camera) : CamOp → Camera
  | .pan dx dy => ⟨cam.x + dx, cam.y + dy, cam.z⟩
  | .zoomAt cx cy zoomIn => wheelZoom cam cx cy zoomIn
  | .resetZoom => ⟨cam.x, cam.y, 1⟩

/-- The initial camera state (App.jsx line 78), parametrized by the viewport
size: `{x: innerWidth/2 - 4000, y: innerHeight/2 - 4000, z: 1}`. -/
def initialCamera (vw vh : ℚ) : Camera :=
  ⟨vw / 2 - 4000, vh / 2 - 4000, 1⟩

/-- The drag state captured by `handlePointerDown`
(PhysicsElement.jsx lines 136-142). -/
structure DragInfo where
  active : Bool
  startX : ℚ
  startY : ℚ
  bodyX : ℚ
  bodyY : ℚ

/-- `handlePointerDown` (PhysicsElement.jsx lines 131-148): record the pointer
screen position and the body position at drag start.  (The body is also made
static with zero velocity; physics integration is outside this model.) -/
def handlePointerDown (e : ℚ × ℚ) (bodyPos : ℚ × ℚ) : DragInfo :=
  ⟨true, e.1, e.2, bodyPos.1, bodyPos.2⟩

/-- `handlePointerMove` (PhysicsElement.jsx lines 156-166): when a drag is
active and a camera is present, set the body position to
`startBodyPos + (screenDelta / camera.z)`; otherwise leave it unchanged. -/
def handlePointerMove (info : DragInfo) (camera : Option Camera) (pos : ℚ × ℚ)
    (e : ℚ × ℚ) : ℚ × ℚ :=
  match camera with
  | none => pos
  | some cam =>
    if info.active then
      (info.bodyX + (e.1 - info.startX) / cam.z, info.bodyY + (e.2 - info.startY) / cam.z)
    else pos

/-- Modelled from the spec (claim C4): the per-pixel contract of the dither
loop body — quantize `new = old < threshold ? 0 : 255`, write it to the three
color channels and clamp them, and add `err = (old - new)/8` to the (unclamped)
first channel of exactly the in-bounds forward neighbors
`(x+1,y), (x+2,y), (x-1,y+1), (x,y+1), (x+1,y+1), (x,y+2)`. -/
def ditherStepSpec (w h : Nat) (threshold : ℚ) (d : Nat → ℚ) (y x : Nat) : Nat → ℚ :=
  let idx := (y * w + x) * 4
  let old := d idx
  let newP := quantize threshold old
  let err := (old - newP) / 8
  fun j =>
    if j = idx ∨ j = idx + 1 ∨ j = idx + 2 then clamp255 newP
    else if (x + 1 < w ∧ j = (y * w + (x + 1)) * 4) ∨
        (x + 2 < w ∧ j = (y * w + (x + 2)) * 4) ∨
        (1 ≤ x ∧ y + 1 < h ∧ j = ((y + 1) * w + (x - 1)) * 4) ∨
        (y + 1 < h ∧ j = ((y + 1) * w + x) * 4) ∨
        (x + 1 < w ∧ y + 1 < h ∧ j = ((y + 1) * w + (x + 1)) * 4) ∨
        (y + 2 < h ∧ j = ((y + 2) * w + x) * 4) then
      d j + err
    else d j

/-- Modelled from the spec (claim C7): the optional leading hash, stated via
`head?`/`tail` rather than by pattern matching. -/
def specStrip (cs : List Char) : List Char :=
  if cs.head? = some '#' then cs.tail else cs

/-- Modelled from the spec (claim C7): a string is accepted exactly when,
after the optional `#`, it consists of exactly six hex digits
(case-insensitive). -/
def specHexAccepts (s : String) : Bool :=
  (specStrip s.data).length = 6 && (specStrip s.data).all hexDigit

/-- Modelled from the spec (claim C7): the (r, g, b) components of an accepted
hex string — each channel is the value of its two-digit group. -/
def specHexValue (s : String) : Rgb :=
  match specStrip s.data with
  | [c1, c2, c3, c4, c5, c6] =>
    ⟨16 * hexDigitVal c1 + hexDigitVal c2, 16 * hexDigitVal c3 + hexDigitVal c4,
      16 * hexDigitVal c5 + hexDigitVal c6⟩
  | _ => ⟨0, 0, 0⟩

/-- A uniform bitmap: every buffer entry (all four channels) holds `v`. -/
def uniformImg (w h : Nat) (v : ℚ) : ImageData :=
  ⟨w, h, fun _ => v⟩

/-- A 1×1 pure black, fully opaque bitmap: RGBA = (0, 0, 0, 255). -/
def blackPixel1 : ImageData :=
  ⟨1, 1, fun j => if j = 3 then 255 else 0⟩

/-- A 1×1 pure white, fully opaque bitmap: RGBA = (255, 255, 255, 255). -/
def whitePixel1 : ImageData :=
  ⟨1, 1, fun _ => 255⟩

/-- A concrete 2×2 mid-gray opaque bitmap used by witnesses. -/
def gray2x2 : ImageData :=
  ⟨2, 2, fun j => if j % 4 = 3 then 255 else 100⟩

end Ditter

namespace Ditter

/-! ### Generic fold and store lemmas -/

/-- Invariant preservation along a left fold. -/
theorem foldl_pres {α β : Type} (f : α → β → α) (P : α → Prop) :
    ∀ (L : List β) (a : α), P a → (∀ x b, b ∈ L → P x → P (f x b)) → P (L.foldl f a) := by
  intro L
  induction L with
  | nil => intro a h0 _; exact h0
  | cons b L ih =>
    intro a h0 hstep
    exact ih (f a b) (hstep a b (List.mem_cons_self b L) h0)
      (fun x c hc hx => hstep x c (List.mem_cons_of_mem b hc) hx)

/-- Pointwise value of a guarded error-diffusion write. -/
theorem ite_addAt_apply (g : Prop) [Decidable g] (dd : Nat → ℚ) (a : Nat) (e : ℚ)
    (j : Nat) : (if g then addAt dd a e else dd) j = if g ∧ j = a then dd j + e else dd j := by
  by_cases hg : g
  · by_cases hj : j = a
    · simp [hg, hj, addAt, upd]
    · simp [hg, hj, addAt, upd]
  · simp [hg]

/-- Pointwise value of `setRGB`. -/
theorem setRGB_apply (d : Nat → ℚ) (idx : Nat) (v : ℚ) (j : Nat) :
    setRGB d idx v j = if j = idx ∨ j = idx + 1 ∨ j = idx + 2 then v else d j := by
  unfold setRGB upd
  split_ifs <;> first | rfl | omega

/-- Pointwise value of `clampPixel`: the three color channels are clamped in
place, everything else is untouched. -/
theorem clampPixel_apply (d : Nat → ℚ) (idx j : Nat) :
    clampPixel d idx j = if j = idx ∨ j = idx + 1 ∨ j = idx + 2 then clamp255 (d j) else d j := by
  unfold clampPixel upd
  split_ifs <;> simp_all <;> omega

/-- Pointwise value of `distributeError` in terms of offsets from `idx`: each
active guarded address receives exactly one `+ ef`, and no other index
changes.  (The guards make the active addresses pairwise distinct.) -/
theorem distributeError_at (w h y x idx : Nat) (ef : ℚ) (d : Nat → ℚ)
    (hx : x < w) (hy : y < h) (j : Nat) :
    distributeError w h y x idx ef d j =
      if (x + 1 < w ∧ j = idx + 4) ∨ (x + 2 < w ∧ j = idx + 8) ∨
          (1 ≤ x ∧ y + 1 < h ∧ j = idx + w * 4 - 4) ∨ (y + 1 < h ∧ j = idx + w * 4) ∨
          (x + 1 < w ∧ y + 1 < h ∧ j = idx + w * 4 + 4) ∨ (y + 2 < h ∧ j = idx + w * 8) then
        d j + ef
      else d j := by
  unfold distributeError
  simp only [ite_addAt_apply]
  split_ifs <;> first | rfl | omega | (exfalso; omega)

/-- Pointwise value of `distributeError` for an in-bounds pixel, with the
write addresses expressed through pixel coordinates: each of the six in-bounds
forward neighbors `(x+1,y), (x+2,y), (x-1,y+1), (x,y+1), (x+1,y+1), (x,y+2)`
receives exactly one `+ ef` on its first channel, and no other index changes. -/
theorem distributeError_apply (w h y x : Nat) (ef : ℚ) (d : Nat → ℚ)
    (hx : x < w) (hy : y < h) (j : Nat) :
    distributeError w h y x ((y * w + x) * 4) ef d j =
      if (x + 1 < w ∧ j = (y * w + (x + 1)) * 4) ∨
          (x + 2 < w ∧ j = (y * w + (x + 2)) * 4) ∨
          (1 ≤ x ∧ y + 1 < h ∧ j = ((y + 1) * w + (x - 1)) * 4) ∨
          (y + 1 < h ∧ j = ((y + 1) * w + x) * 4) ∨
          (x + 1 < w ∧ y + 1 < h ∧ j = ((y + 1) * w + (x + 1)) * 4) ∨
          (y + 2 < h ∧ j = ((y + 2) * w + x) * 4) then
        d j + ef
      else d j := by
  have e1 : (y + 1) * w = y * w + w := by ring
  have e2 : (y + 2) * w = y * w + 2 * w := by ring
  rw [distributeError_at w h y x _ ef d hx hy j]
  have i1 : (x + 1 < w ∧ j = (y * w + x) * 4 + 4) ↔
      (x + 1 < w ∧ j = (y * w + (x + 1)) * 4) := by omega
  have i2 : (x + 2 < w ∧ j = (y * w + x) * 4 + 8) ↔
      (x + 2 < w ∧ j = (y * w + (x + 2)) * 4) := by omega
  have i3 : (1 ≤ x ∧ y + 1 < h ∧ j = (y * w + x) * 4 + w * 4 - 4) ↔
      (1 ≤ x ∧ y + 1 < h ∧ j = ((y + 1) * w + (x - 1)) * 4) := by omega
  have i4 : (y + 1 < h ∧ j = (y * w + x) * 4 + w * 4) ↔
      (y + 1 < h ∧ j = ((y + 1) * w + x) * 4) := by omega
  have i5 : (x + 1 < w ∧ y + 1 < h ∧ j = (y * w + x) * 4 + w * 4 + 4) ↔
      (x + 1 < w ∧ y + 1 < h ∧ j = ((y + 1) * w + (x + 1)) * 4) := by omega
  have i6 : (y + 2 < h ∧ j = (y * w + x) * 4 + w * 8) ↔
      (y + 2 < h ∧ j = ((y + 2) * w + x) * 4) := by omega
  exact if_congr (or_congr i1 (or_congr i2 (or_congr i3 (or_congr i4 (or_congr i5 i6)))))
    rfl rfl

end Ditter

namespace Ditter

/-- Clamping an already-quantized value is the identity. -/
theorem clamp_quantize (t v : ℚ) : clamp255 (quantize t v) = quantize t v := by
  unfold clamp255 quantize
  split_ifs <;> norm_num

/-- A quantized value is pure black or pure white. -/
theorem quantize_eq_or (t v : ℚ) : quantize t v = 0 ∨ quantize t v = 255 := by
  unfold quantize
  split_ifs <;> simp

/-- The dither loop body equals its per-pixel specification `ditherStepSpec`
for every in-bounds pixel. -/
theorem ditherStep_apply (w h : Nat) (t : ℚ) (d : Nat → ℚ) (y x : Nat)
    (hx : x < w) (hy : y < h) :
    ditherStep w h t d y x = ditherStepSpec w h t d y x := by
  funext j
  have e1 : (y + 1) * w = y * w + w := by ring
  have e2 : (y + 2) * w = y * w + 2 * w := by ring
  show clampPixel (distributeError w h y x ((y * w + x) * 4)
      ((d ((y * w + x) * 4) - quantize t (d ((y * w + x) * 4))) / 8)
      (setRGB d ((y * w + x) * 4) (quantize t (d ((y * w + x) * 4))))) ((y * w + x) * 4) j
    = ditherStepSpec w h t d y x j
  rw [clampPixel_apply]
  rw [distributeError_apply w h y x _ _ hx hy]
  rw [setRGB_apply]
  simp only [ditherStepSpec]
  by_cases hA : j = (y * w + x) * 4 ∨ j = (y * w + x) * 4 + 1 ∨ j = (y * w + x) * 4 + 2
  · have hD : ¬((x + 1 < w ∧ j = (y * w + (x + 1)) * 4) ∨
        (x + 2 < w ∧ j = (y * w + (x + 2)) * 4) ∨
        (1 ≤ x ∧ y + 1 < h ∧ j = ((y + 1) * w + (x - 1)) * 4) ∨
        (y + 1 < h ∧ j = ((y + 1) * w + x) * 4) ∨
        (x + 1 < w ∧ y + 1 < h ∧ j = ((y + 1) * w + (x + 1)) * 4) ∨
        (y + 2 < h ∧ j = ((y + 2) * w + x) * 4)) := by omega
    simp only [if_pos hA, if_neg hD]
  · simp only [if_neg hA]

end Ditter

namespace Ditter

/-- A dither step leaves every index below its pixel base, and every alpha
channel, unchanged: all its writes hit the three channels of the current
pixel or the first channel of a strictly later pixel. -/
theorem ditherStep_untouched (w h : Nat) (t : ℚ) (d : Nat → ℚ) (y x : Nat)
    (hx : x < w) (hy : y < h) (j : Nat)
    (hj : j < (y * w + x) * 4 ∨ j % 4 = 3) :
    ditherStep w h t d y x j = d j := by
  rw [ditherStep_apply w h t d y x hx hy]
  simp only [ditherStepSpec]
  have e1 : (y + 1) * w = y * w + w := by ring
  have e2 : (y + 2) * w = y * w + 2 * w := by ring
  have hA : ¬(j = (y * w + x) * 4 ∨ j = (y * w + x) * 4 + 1 ∨
      j = (y * w + x) * 4 + 2) := by omega
  have hD : ¬((x + 1 < w ∧ j = (y * w + (x + 1)) * 4) ∨
      (x + 2 < w ∧ j = (y * w + (x + 2)) * 4) ∨
      (1 ≤ x ∧ y + 1 < h ∧ j = ((y + 1) * w + (x - 1)) * 4) ∨
      (y + 1 < h ∧ j = ((y + 1) * w + x) * 4) ∨
      (x + 1 < w ∧ y + 1 < h ∧ j = ((y + 1) * w + (x + 1)) * 4) ∨
      (y + 2 < h ∧ j = ((y + 2) * w + x) * 4)) := by omega
  simp only [if_neg hA, if_neg hD]

/-- After its own dither step, all three color channels of pixel `(x, y)`
hold the quantized value of the luminance it had when the step ran. -/
theorem ditherStep_rgb (w h : Nat) (t : ℚ) (d : Nat → ℚ) (y x : Nat)
    (hx : x < w) (hy : y < h) (k : Nat) (hk : k ≤ 2) :
    ditherStep w h t d y x ((y * w + x) * 4 + k) = quantize t (d ((y * w + x) * 4)) := by
  rw [ditherStep_apply w h t d y x hx hy]
  simp only [ditherStepSpec]
  have hA : (y * w + x) * 4 + k = (y * w + x) * 4 ∨
      (y * w + x) * 4 + k = (y * w + x) * 4 + 1 ∨
      (y * w + x) * 4 + k = (y * w + x) * 4 + 2 := by omega
  rw [if_pos hA, clamp_quantize]

/-- One row of the dither pass leaves every index below the row base, and
every alpha channel, unchanged. -/
theorem ditherRow_untouched (w h : Nat) (t : ℚ) (y : Nat) (hy : y < h)
    (d : Nat → ℚ) (j : Nat) (hj : j < y * w * 4 ∨ j % 4 = 3) :
    ditherRow w h t y d j = d j := by
  unfold ditherRow
  refine foldl_pres _ (fun dd => dd j = d j) (List.range w) d rfl ?_
  intro dd x hmem hdd
  have hx : x < w := List.mem_range.mp hmem
  rw [ditherStep_untouched w h t dd y x hx hy j (by omega), hdd]

/-- Processing the first `n` columns of row `y` makes every processed pixel
of that row pure black or pure white on all three color channels. -/
theorem ditherRowAux_bit (w h : Nat) (t : ℚ) (y : Nat) (hy : y < h) :
    ∀ n, n ≤ w → ∀ d : Nat → ℚ, ∀ x, x < n →
      ∃ v, (v = 0 ∨ v = 255) ∧ ∀ k, k ≤ 2 →
        ((List.range n).foldl (fun dc x2 => ditherStep w h t dc y x2) d)
          ((y * w + x) * 4 + k) = v := by
  intro n
  induction n with
  | zero => intro _ d x hx; omega
  | succ n ih =>
    intro hn d x hx
    rw [List.range_succ, List.foldl_append, List.foldl_cons, List.foldl_nil]
    by_cases hxn : x < n
    · obtain ⟨v, hv, hc⟩ := ih (by omega) d x hxn
      refine ⟨v, hv, fun k hk => ?_⟩
      rw [ditherStep_untouched w h t _ y n (by omega) hy _ (Or.inl (by omega))]
      exact hc k hk
    · have hxeq : x = n := by omega
      subst hxeq
      exact ⟨quantize t (((List.range x).foldl (fun dc x2 => ditherStep w h t dc y x2) d)
          ((y * w + x) * 4)), quantize_eq_or _ _,
        fun k hk => ditherStep_rgb w h t _ y x (by omega) hy k hk⟩

/-- Processing the first `m` rows makes every pixel of those rows pure black
or pure white on all three color channels. -/
theorem ditherPassAux_bit (w h : Nat) (t : ℚ) :
    ∀ m, m ≤ h → ∀ d : Nat → ℚ, ∀ y x, y < m → x < w →
      ∃ v, (v = 0 ∨ v = 255) ∧ ∀ k, k ≤ 2 →
        ((List.range m).foldl (fun dr y2 => ditherRow w h t y2 dr) d)
          ((y * w + x) * 4 + k) = v := by
  intro m
  induction m with
  | zero => intro _ d y x hy _; omega
  | succ m ih =>
    intro hm d y x hy hx
    rw [List.range_succ, List.foldl_append, List.foldl_cons, List.foldl_nil]
    by_cases hym : y < m
    · obtain ⟨v, hv, hc⟩ := ih (by omega) d y x hym hx
      refine ⟨v, hv, fun k hk => ?_⟩
      have e1 : (y + 1) * w = y * w + w := by ring
      have hmul : (y + 1) * w ≤ m * w := Nat.mul_le_mul_right w (by omega)
      rw [ditherRow_untouched w h t m (by omega) _ _ (Or.inl (by omega))]
      exact hc k hk
    · have hyeq : y = m := by omega
      subst hyeq
      exact ditherRowAux_bit w h t y (by omega) w le_rfl
        ((List.range y).foldl (fun dr y2 => ditherRow w h t y2 dr) d) x hx

/-- After the full dither pass, every pixel is pure black or pure white on
all three color channels. -/
theorem ditherPass_bit (w h : Nat) (t : ℚ) (d : Nat → ℚ) (y x : Nat)
    (hy : y < h) (hx : x < w) :
    ∃ v, (v = 0 ∨ v = 255) ∧ ∀ k, k ≤ 2 →
      ditherPass w h t d ((y * w + x) * 4 + k) = v := by
  unfold ditherPass
  exact ditherPassAux_bit w h t h le_rfl d y x hy hx

/-- The dither pass never writes an alpha channel. -/
theorem ditherPass_alpha (w h : Nat) (t : ℚ) (d : Nat → ℚ) (j : Nat)
    (hj : j % 4 = 3) : ditherPass w h t d j = d j := by
  unfold ditherPass
  refine foldl_pres _ (fun dd => dd j = d j) (List.range h) d rfl ?_
  intro dd y hmem hdd
  rw [ditherRow_untouched w h t y (List.mem_range.mp hmem) dd j (Or.inr hj), hdd]

/-- Pointwise value of one grayscale-loop iteration. -/
theorem grayscaleStep_apply (d : Nat → ℚ) (p j : Nat) :
    grayscaleStep d p j =
      if j = 4 * p ∨ j = 4 * p + 1 ∨ j = 4 * p + 2 then lumaAt d (4 * p) else d j := by
  unfold grayscaleStep upd
  split_ifs <;> first | rfl | omega

/-- The grayscale pass never writes an alpha channel. -/
theorem grayscalePass_alpha (n : Nat) (d : Nat → ℚ) (j : Nat) (hj : j % 4 = 3) :
    grayscalePass n d j = d j := by
  unfold grayscalePass
  refine foldl_pres _ (fun dd => dd j = d j) (List.range n) d rfl ?_
  intro dd p _ hdd
  rw [grayscaleStep_apply, if_neg (by omega), hdd]

/-- Every pixel index below `w * h` decomposes into raster coordinates. -/
theorem pixel_decompose (w h p : Nat) (hp : p < w * h) :
    ∃ y x, y < h ∧ x < w ∧ p = y * w + x := by
  have hw : 0 < w := by
    rcases Nat.eq_zero_or_pos w with h0 | h0
    · subst h0; simp at hp
    · exact h0
  refine ⟨p / w, p % w, ?_, Nat.mod_lt _ hw, ?_⟩
  · exact (Nat.div_lt_iff_lt_mul hw).mpr (by rw [Nat.mul_comm h w]; exact hp)
  · have h1 := Nat.div_add_mod p w
    have h2 : (p / w) * w = w * (p / w) := Nat.mul_comm _ _
    omega

end Ditter

namespace Ditter

/-- Claim C1: for every bitmap with well-formed width/height and a pixel
buffer of length `width*height*4` (all channels in `[0,255]`), and every
threshold, after `applyAtkinsonDither` returns every pixel has R = G = B with
the common value exactly 0 or 255, and the completed pass leaves no channel
(alpha included) outside `[0,255]`. -/
theorem dither_output_is_one_bit (img : ImageData) (t : ℚ)
    (hin : ∀ j, j < img.width * img.height * 4 →
      0 ≤ img.data j ∧ img.data j ≤ 255) :
    (∀ p, p < img.width * img.height →
      ((applyAtkinsonDither img t).data (4 * p) =
          (applyAtkinsonDither img t).data (4 * p + 1) ∧
        (applyAtkinsonDither img t).data (4 * p + 1) =
          (applyAtkinsonDither img t).data (4 * p + 2)) ∧
      ((applyAtkinsonDither img t).data (4 * p) = 0 ∨
        (applyAtkinsonDither img t).data (4 * p) = 255)) ∧
    (∀ j, j < img.width * img.height * 4 →
      0 ≤ (applyAtkinsonDither img t).data j ∧
        (applyAtkinsonDither img t).data j ≤ 255) := by
  have key : ∀ p, p < img.width * img.height → ∃ v, (v = 0 ∨ v = 255) ∧
      ∀ k, k ≤ 2 → (applyAtkinsonDither img t).data (4 * p + k) = v := by
    intro p hp
    obtain ⟨y, x, hy, hx, rfl⟩ := pixel_decompose img.width img.height p hp
    obtain ⟨v, hv, hc⟩ := ditherPass_bit img.width img.height t
      (grayscalePass (img.width * img.height) img.data) y x hy hx
    refine ⟨v, hv, fun k hk => ?_⟩
    show ditherPass img.width img.height t
      (grayscalePass (img.width * img.height) img.data) (4 * (y * img.width + x) + k) = v
    rw [show 4 * (y * img.width + x) + k = (y * img.width + x) * 4 + k from by ring]
    exact hc k hk
  constructor
  · intro p hp
    obtain ⟨v, hv, hc⟩ := key p hp
    have h0 := hc 0 (by omega)
    rw [Nat.add_zero] at h0
    refine ⟨⟨?_, ?_⟩, ?_⟩
    · rw [h0, hc 1 (by omega)]
    · rw [hc 1 (by omega), hc 2 (by omega)]
    · rw [h0]; exact hv
  · intro j hj
    rcases Nat.lt_or_ge (j % 4) 3 with hmod | hmod
    · have hp : j / 4 < img.width * img.height := by omega
      obtain ⟨v, hv, hc⟩ := key (j / 4) hp
      have hjeq : j = 4 * (j / 4) + j % 4 := by omega
      have hval := hc (j % 4) (by omega)
      rw [hjeq, hval]
      rcases hv with rfl | rfl <;> norm_num
    · have hm3 : j % 4 = 3 := by omega
      have halpha : (applyAtkinsonDither img t).data j = img.data j := by
        show ditherPass img.width img.height t
          (grayscalePass (img.width * img.height) img.data) j = img.data j
        rw [ditherPass_alpha img.width img.height t _ j hm3,
          grayscalePass_alpha (img.width * img.height) img.data j hm3]
      rw [halpha]
      exact hin j hj

/-- Claim C4: the body of the dither loop at pixel `(x, y)` quantizes
`new = old < threshold ? 0 : 255`, adds `err = (old - new)/8` to the current,
unclamped first-channel values of exactly the six in-bounds forward neighbors
`(x+1,y), (x+2,y), (x-1,y+1), (x,y+1), (x+1,y+1), (x,y+2)` (out-of-bounds
neighbors are discarded), and clamps only the already-quantized pixel's three
channels — as captured by `ditherStepSpec`. -/
theorem dither_step_matches_kernel_spec (w h : Nat) (t : ℚ) (d : Nat → ℚ)
    (y x : Nat) (hx : x < w) (hy : y < h) :
    ditherStep w h t d y x = ditherStepSpec w h t d y x :=
  ditherStep_apply w h t d y x hx hy

end Ditter

namespace Ditter

/-- Grayscaling a constant buffer leaves it constant: the BT.601 coefficients
sum to 1 exactly. -/
theorem grayscalePass_const (n : Nat) (c : ℚ) (d : Nat → ℚ) (hd : ∀ j, d j = c) :
    ∀ j, grayscalePass n d j = c := by
  unfold grayscalePass
  refine foldl_pres _ (fun dd => ∀ j, dd j = c) (List.range n) d hd ?_
  intro dd p _ hdd j
  rw [grayscaleStep_apply]
  split_ifs
  · unfold lumaAt
    rw [hdd, hdd, hdd]
    ring
  · exact hdd j

/-- A dither row keeps a constant buffer constant when the constant is a fixed
point of quantization. -/
theorem ditherRow_const (w h : Nat) (t : ℚ) (y : Nat) (hy : y < h) (c : ℚ)
    (hq : quantize t c = c) (d : Nat → ℚ) (hd : ∀ j, d j = c) :
    ∀ j, ditherRow w h t y d j = c := by
  unfold ditherRow
  refine foldl_pres _ (fun dd => ∀ j, dd j = c) (List.range w) d hd ?_
  intro dd x hmem hdd j
  rw [ditherStep_apply w h t dd y x (List.mem_range.mp hmem) hy]
  simp only [ditherStepSpec]
  simp only [hdd, clamp_quantize]
  simp only [hq]
  split_ifs <;> ring

/-- The dither pass keeps a constant buffer constant when the constant is a
fixed point of quantization (the quantization error is then zero). -/
theorem ditherPass_const (w h : Nat) (t : ℚ) (c : ℚ) (hq : quantize t c = c)
    (d : Nat → ℚ) (hd : ∀ j, d j = c) : ∀ j, ditherPass w h t d j = c := by
  unfold ditherPass
  refine foldl_pres _ (fun dd => ∀ j, dd j = c) (List.range h) d hd ?_
  intro dd y hmem hdd
  exact ditherRow_const w h t y (List.mem_range.mp hmem) c hq dd hdd

/-- The top-left pixel is processed first, with no incoming error: its final
value is the quantization of its initial luminance. -/
theorem ditherPass_first (w h : Nat) (t : ℚ) (hw : 1 ≤ w) (hh : 1 ≤ h)
    (d : Nat → ℚ) : ditherPass w h t d 0 = quantize t (d 0) := by
  obtain ⟨w1, rfl⟩ : ∃ w1, w = w1 + 1 := ⟨w - 1, by omega⟩
  obtain ⟨h1, rfl⟩ : ∃ h1, h = h1 + 1 := ⟨h - 1, by omega⟩
  unfold ditherPass
  rw [List.range_succ_eq_map, List.foldl_cons]
  have hrow0 : ditherRow (w1 + 1) (h1 + 1) t 0 d 0 = quantize t (d 0) := by
    unfold ditherRow
    rw [List.range_succ_eq_map, List.foldl_cons]
    have hfirst : ditherStep (w1 + 1) (h1 + 1) t d 0 0 0 = quantize t (d 0) := by
      have hstep := ditherStep_rgb (w1 + 1) (h1 + 1) t d 0 0 (by omega) (by omega) 0
        (by omega)
      simpa using hstep
    refine foldl_pres _ (fun dd : Nat → ℚ => dd 0 = quantize t (d 0))
      ((List.range w1).map Nat.succ) _ hfirst ?_
    intro dd x hmem hdd
    obtain ⟨x2, hx2, rfl⟩ := List.mem_map.mp hmem
    have hx2r : x2 < w1 := List.mem_range.mp hx2
    rw [ditherStep_untouched (w1 + 1) (h1 + 1) t dd 0 (Nat.succ x2) (by omega)
      (by omega) 0 (Or.inl (by omega)), hdd]
  refine foldl_pres _ (fun dd : Nat → ℚ => dd 0 = quantize t (d 0))
    ((List.range h1).map Nat.succ) _ hrow0 ?_
  intro dd y hmem hdd
  obtain ⟨y2, hy2, rfl⟩ := List.mem_map.mp hmem
  have hy2r : y2 < h1 := List.mem_range.mp hy2
  have hpos : 0 < Nat.succ y2 * (w1 + 1) := Nat.mul_pos (by omega) (by omega)
  rw [ditherRow_untouched (w1 + 1) (h1 + 1) t (Nat.succ y2) (by omega) dd 0
    (Or.inl (by omega)), hdd]

end Ditter

namespace Ditter

/-- Claim C3 (amended): for every uniform bitmap of value `V`, the first
(top-left) pixel is deterministically 0 if `V < t` and 255 otherwise; a
uniform bitmap at `V = 0` (below any positive threshold) dithers to all-black,
and at `V = 255` (at/above any threshold that is at most 255) to all-white.
The original claim that every uniform `V < t` bitmap has an all-black interior
is false — see the counterexample: accumulated error can cross the
threshold. -/
theorem uniform_dither_amended (w h : Nat) (V t : ℚ) (hw : 1 ≤ w) (hh : 1 ≤ h) :
    ((applyAtkinsonDither (uniformImg w h V) t).data 0 = if V < t then 0 else 255) ∧
    (0 < t → ∀ j, (applyAtkinsonDither (uniformImg w h 0) t).data j = 0) ∧
    (t ≤ 255 → ∀ j, (applyAtkinsonDither (uniformImg w h 255) t).data j = 255) := by
  have hgray : ∀ c : ℚ, ∀ j, grayscalePass (w * h) (fun _ => c) j = c := fun c =>
    grayscalePass_const (w * h) c _ (fun _ => rfl)
  refine ⟨?_, ?_, ?_⟩
  · show ditherPass w h t (grayscalePass (w * h) (fun _ => V)) 0 = _
    rw [ditherPass_first w h t hw hh _, hgray V 0]
    rfl
  · intro ht j
    show ditherPass w h t (grayscalePass (w * h) (fun _ => (0 : ℚ))) j = 0
    refine ditherPass_const w h t 0 ?_ _ (hgray 0) j
    unfold quantize
    rw [if_pos ht]
  · intro ht j
    show ditherPass w h t (grayscalePass (w * h) (fun _ => (255 : ℚ))) j = 255
    refine ditherPass_const w h t 255 ?_ _ (hgray 255) j
    unfold quantize
    rw [if_neg (by linarith)]

end Ditter

namespace Ditter

/-- Counterexample to claim C3 as stated: the uniform 3×3 bitmap of value 100
with threshold 128 satisfies `V < t`, yet its interior pixel `(1, 1)` dithers
to white (255), not black — the four accumulated error contributions push its
effective luminance to `10125/64 > 128`. -/
theorem uniform_dither_interior_counterexample :
    (100 : ℚ) < 128 ∧
    (applyAtkinsonDither (uniformImg 3 3 100) 128).data (4 * (1 * 3 + 1)) = 255 := by
  refine ⟨by norm_num, ?_⟩
  have hb0 : ∀ j, grayscalePass 9 (fun _ => (100 : ℚ)) j = 100 :=
    grayscalePass_const 9 100 _ (fun _ => rfl)
  set d0 : Nat → ℚ := grayscalePass 9 (fun _ => (100 : ℚ)) with hd0
  set dA := ditherStep 3 3 128 d0 0 0 with hdA
  set dB := ditherStep 3 3 128 dA 0 1 with hdB
  set dC := ditherStep 3 3 128 dB 0 2 with hdC
  set dD := ditherStep 3 3 128 dC 1 0 with hdD
  set dE := ditherStep 3 3 128 dD 1 1 with hdE
  set dF := ditherStep 3 3 128 dE 1 2 with hdF
  set dG := ditherStep 3 3 128 dF 2 0 with hdG
  set dH := ditherStep 3 3 128 dG 2 1 with hdH
  set dI := ditherStep 3 3 128 dH 2 2 with hdI
  have happ : (applyAtkinsonDither (uniformImg 3 3 100) 128).data = dI := rfl
  rw [happ]
  have hA4 : dA 4 = 225/2 := by
    rw [hdA, ditherStep_apply 3 3 128 d0 0 0 (by norm_num) (by norm_num)]
    norm_num [ditherStepSpec, quantize, hb0]
  have hA8 : dA 8 = 225/2 := by
    rw [hdA, ditherStep_apply 3 3 128 d0 0 0 (by norm_num) (by norm_num)]
    norm_num [ditherStepSpec, quantize, hb0]
  have hA12 : dA 12 = 225/2 := by
    rw [hdA, ditherStep_apply 3 3 128 d0 0 0 (by norm_num) (by norm_num)]
    norm_num [ditherStepSpec, quantize, hb0]
  have hA16 : dA 16 = 225/2 := by
    rw [hdA, ditherStep_apply 3 3 128 d0 0 0 (by norm_num) (by norm_num)]
    norm_num [ditherStepSpec, quantize, hb0]
  have hB8 : dB 8 = 2025/16 := by
    rw [hdB, ditherStep_apply 3 3 128 dA 0 1 (by norm_num) (by norm_num)]
    norm_num [ditherStepSpec, quantize, hA4, hA8]
  have hB12 : dB 12 = 2025/16 := by
    rw [hdB, ditherStep_apply 3 3 128 dA 0 1 (by norm_num) (by norm_num)]
    norm_num [ditherStepSpec, quantize, hA4, hA12]
  have hB16 : dB 16 = 2025/16 := by
    rw [hdB, ditherStep_apply 3 3 128 dA 0 1 (by norm_num) (by norm_num)]
    norm_num [ditherStepSpec, quantize, hA4, hA16]
  have hC12 : dC 12 = 2025/16 := by
    rw [hdC, ditherStep_apply 3 3 128 dB 0 2 (by norm_num) (by norm_num)]
    norm_num [ditherStepSpec, quantize, hB8, hB12]
  have hC16 : dC 16 = 18225/128 := by
    rw [hdC, ditherStep_apply 3 3 128 dB 0 2 (by norm_num) (by norm_num)]
    norm_num [ditherStepSpec, quantize, hB8, hB16]
  have hD16 : dD 16 = 10125/64 := by
    rw [hdD, ditherStep_apply 3 3 128 dC 1 0 (by norm_num) (by norm_num)]
    norm_num [ditherStepSpec, quantize, hC12, hC16]
  have hE16 : dE 16 = 255 := by
    rw [hdE, ditherStep_apply 3 3 128 dD 1 1 (by norm_num) (by norm_num)]
    norm_num [ditherStepSpec, quantize, clamp255, hD16]
  have hF16 : dF 16 = 255 := by
    rw [hdF, ditherStep_untouched 3 3 128 dE 1 2 (by norm_num) (by norm_num) 16
      (by norm_num)]
    exact hE16
  have hG16 : dG 16 = 255 := by
    rw [hdG, ditherStep_untouched 3 3 128 dF 2 0 (by norm_num) (by norm_num) 16
      (by norm_num)]
    exact hF16
  have hH16 : dH 16 = 255 := by
    rw [hdH, ditherStep_untouched 3 3 128 dG 2 1 (by norm_num) (by norm_num) 16
      (by norm_num)]
    exact hG16
  show dI (4 * (1 * 3 + 1)) = 255
  rw [show (4 * (1 * 3 + 1) : Nat) = 16 from by norm_num]
  rw [hdI, ditherStep_untouched 3 3 128 dH 2 2 (by norm_num) (by norm_num) 16
    (by norm_num)]
  exact hH16

end Ditter

namespace Ditter

/-- Pointwise value of one color-map loop iteration: only the four channels of
pixel `p` can change, driven by the test `data[4p] < 128`. -/
theorem colorMapStep_apply (fg : Rgb) (d : Nat → ℚ) (p j : Nat) :
    colorMapStep fg d p j =
      if j / 4 = p then
        (if d (4 * p) < 128 then
          (if j % 4 = 0 then (fg.r : ℚ) else if j % 4 = 1 then (fg.g : ℚ)
            else if j % 4 = 2 then (fg.b : ℚ) else 255)
        else (if j % 4 = 3 then 0 else d j))
      else d j := by
  simp only [colorMapStep]
  split_ifs <;> simp only [upd] <;> split_ifs <;> first | rfl | omega | (exfalso; omega)

/-- Pointwise value of the color-map fold over the first `n` pixels. -/
theorem colorMapFold_apply (fg : Rgb) :
    ∀ (n : Nat) (d : Nat → ℚ) (j : Nat),
      ((List.range n).foldl (colorMapStep fg) d) j =
        if j / 4 < n then
          (if d (4 * (j / 4)) < 128 then
            (if j % 4 = 0 then (fg.r : ℚ) else if j % 4 = 1 then (fg.g : ℚ)
              else if j % 4 = 2 then (fg.b : ℚ) else 255)
          else (if j % 4 = 3 then 0 else d j))
        else d j := by
  intro n
  induction n with
  | zero =>
    intro d j
    simp
  | succ n ih =>
    intro d j
    rw [List.range_succ, List.foldl_append, List.foldl_cons, List.foldl_nil]
    rw [colorMapStep_apply]
    by_cases hjn : j / 4 = n
    · rw [if_pos hjn]
      have hc1 : ¬(4 * n / 4 < n) := by omega
      have h1 : ((List.range n).foldl (colorMapStep fg) d) (4 * n) = d (4 * n) := by
        rw [ih, if_neg hc1]
      have hc2 : ¬(j / 4 < n) := by omega
      have h2 : ((List.range n).foldl (colorMapStep fg) d) j = d j := by
        rw [ih, if_neg hc2]
      have hc3 : j / 4 < n + 1 := by omega
      have h4 : 4 * (j / 4) = 4 * n := by omega
      rw [h1, h2, if_pos hc3, h4]
    · rw [if_neg hjn, ih]
      by_cases hlt : j / 4 < n
      · have hc4 : j / 4 < n + 1 := by omega
        rw [if_pos hlt, if_pos hc4]
      · have hc5 : ¬(j / 4 < n + 1) := by omega
        rw [if_neg hlt, if_neg hc5]

/-- Pointwise value of `applyColorMap` on a bitmap. -/
theorem applyColorMap_data (img : ImageData) (a : String) (j : Nat) :
    (applyColorMap img a).data j =
      if j / 4 < img.width * img.height then
        (if img.data (4 * (j / 4)) < 128 then
          (if j % 4 = 0 then ((hexToRgb a).r : ℚ) else if j % 4 = 1 then ((hexToRgb a).g : ℚ)
            else if j % 4 = 2 then ((hexToRgb a).b : ℚ) else 255)
        else (if j % 4 = 3 then 0 else img.data j))
      else img.data j :=
  colorMapFold_apply (hexToRgb a) (img.width * img.height) img.data j

end Ditter

namespace Ditter

/-- Channel-level value of `applyColorMap` at channel `k` of an in-range
pixel `p`. -/
theorem applyColorMap_channel (img : ImageData) (a : String) (p k : Nat)
    (hp : p < img.width * img.height) (hk : k < 4) :
    (applyColorMap img a).data (4 * p + k) =
      if img.data (4 * p) < 128 then
        (if k = 0 then ((hexToRgb a).r : ℚ) else if k = 1 then ((hexToRgb a).g : ℚ)
          else if k = 2 then ((hexToRgb a).b : ℚ) else 255)
      else (if k = 3 then 0 else img.data (4 * p + k)) := by
  rw [applyColorMap_data]
  have h1 : (4 * p + k) / 4 = p := by omega
  have h2 : (4 * p + k) % 4 = k := by omega
  rw [h1, h2, if_pos hp]

/-- Counterexample to claim C2 as stated: `applyColorMap` is not idempotent
for every accent color on every 1-bit bitmap.  With accent `#ff0000` the first
application turns the black pixel's first channel into 255; the second
application then classifies the pixel as white and clears its alpha. -/
theorem colorMap_not_idempotent :
    (∀ j, j < 4 → blackPixel1.data j = 0 ∨ blackPixel1.data j = 255) ∧
    (applyColorMap (applyColorMap blackPixel1 "#ff0000") "#ff0000").data 3 ≠
      (applyColorMap blackPixel1 "#ff0000").data 3 := by
  constructor
  · decide
  · decide

/-- Claim C2 (amended): on a bitmap whose channels are all in `{0, 255}`,
applying `applyColorMap` twice with the same accent color equals applying it
once, provided the parsed accent color's red component is below 128 (so that
recolored black pixels still test as black).  Without that proviso the claim
fails — see the counterexample. -/
theorem colorMap_idempotent_for_dark_accent (img : ImageData) (a : String)
    (h1bit : ∀ j, j < img.width * img.height * 4 → img.data j = 0 ∨ img.data j = 255)
    (hfg : (hexToRgb a).r < 128) :
    applyColorMap (applyColorMap img a) a = applyColorMap img a := by
  apply ImageData.ext
  · rfl
  · rfl
  funext j
  rw [applyColorMap_data (applyColorMap img a) a j]
  rw [show (applyColorMap img a).width = img.width from rfl,
    show (applyColorMap img a).height = img.height from rfl]
  by_cases hj : j / 4 < img.width * img.height
  · rw [if_pos hj]
    have hread : (applyColorMap img a).data (4 * (j / 4)) =
        (if img.data (4 * (j / 4)) < 128 then ((hexToRgb a).r : ℚ)
          else img.data (4 * (j / 4))) := by
      rw [applyColorMap_data]
      have e1 : 4 * (j / 4) / 4 = j / 4 := by omega
      have e2 : 4 * (j / 4) % 4 = 0 := by omega
      rw [e1, e2, if_pos hj]
      by_cases hb : img.data (4 * (j / 4)) < 128
      · rw [if_pos hb, if_pos rfl, if_pos hb]
      · rw [if_neg hb, if_neg hb, if_neg (show ¬((0 : Nat) = 3) from by norm_num)]
    by_cases hb : img.data (4 * (j / 4)) < 128
    · have hr : (applyColorMap img a).data (4 * (j / 4)) = ((hexToRgb a).r : ℚ) := by
        rw [hread, if_pos hb]
      have hrlt : ((hexToRgb a).r : ℚ) < 128 := by exact_mod_cast hfg
      rw [hr, if_pos hrlt]
      rw [applyColorMap_data img a j, if_pos hj, if_pos hb]
    · have h255 : img.data (4 * (j / 4)) = 255 := by
        rcases h1bit (4 * (j / 4)) (by omega) with h0 | h0
        · exfalso
          rw [h0] at hb
          exact hb (by norm_num)
        · exact h0
      have hnb : ¬ (applyColorMap img a).data (4 * (j / 4)) < 128 := by
        rw [hread, if_neg hb, h255]
        norm_num
      rw [if_neg hnb, applyColorMap_data img a j, if_pos hj, if_neg hb]
      by_cases hm : j % 4 = 3
      · simp [hm]
      · simp [hm]
  · rw [if_neg hj]

/-- Claim C6: `applyColorMap` maps every pixel whose first channel is below
128 to the parsed accent color with alpha 255, and every other pixel keeps its
RGB but gets alpha 0; concretely, a 1×1 black pixel with accent `#1A2B3C`
becomes RGBA (26, 43, 60, 255), and a 1×1 white pixel gets alpha 0. -/
theorem colorMap_pointwise_mapping :
    (∀ (img : ImageData) (a : String) (p : Nat), p < img.width * img.height →
      (img.data (4 * p) < 128 →
        (applyColorMap img a).data (4 * p) = ((hexToRgb a).r : ℚ) ∧
        (applyColorMap img a).data (4 * p + 1) = ((hexToRgb a).g : ℚ) ∧
        (applyColorMap img a).data (4 * p + 2) = ((hexToRgb a).b : ℚ) ∧
        (applyColorMap img a).data (4 * p + 3) = 255) ∧
      (¬ img.data (4 * p) < 128 →
        (applyColorMap img a).data (4 * p) = img.data (4 * p) ∧
        (applyColorMap img a).data (4 * p + 1) = img.data (4 * p + 1) ∧
        (applyColorMap img a).data (4 * p + 2) = img.data (4 * p + 2) ∧
        (applyColorMap img a).data (4 * p + 3) = 0)) ∧
    ((applyColorMap blackPixel1 "#1A2B3C").data 0 = 26 ∧
      (applyColorMap blackPixel1 "#1A2B3C").data 1 = 43 ∧
      (applyColorMap blackPixel1 "#1A2B3C").data 2 = 60 ∧
      (applyColorMap blackPixel1 "#1A2B3C").data 3 = 255) ∧
    (applyColorMap whitePixel1 "#1A2B3C").data 3 = 0 := by
  refine ⟨?_, by decide, by decide⟩
  intro img a p hp
  have h0 := applyColorMap_channel img a p 0 hp (by omega)
  have h1 := applyColorMap_channel img a p 1 hp (by omega)
  have h2 := applyColorMap_channel img a p 2 hp (by omega)
  have h3 := applyColorMap_channel img a p 3 hp (by omega)
  rw [Nat.add_zero] at h0
  constructor
  · intro hb
    rw [if_pos hb] at h0 h1 h2 h3
    norm_num at h0 h1 h2 h3
    exact ⟨h0, h1, h2, h3⟩
  · intro hb
    rw [if_neg hb] at h0 h1 h2 h3
    norm_num at h0 h1 h2 h3
    exact ⟨h0, h1, h2, h3⟩

end Ditter

namespace Ditter

/-- The regex's optional-hash prefix agrees with the spec-side description. -/
theorem stripHash_eq_specStrip (cs : List Char) : stripHash cs = specStrip cs := by
  cases cs with
  | nil => rfl
  | cons c rest =>
    simp only [stripHash, specStrip, List.head?, List.tail]
    by_cases hc : c = '#'
    · simp [hc]
    · simp [hc]

/-- Claim C7: `hexToRgb` accepts exactly a 6-hex-digit string optionally
prefixed with `#` (case-insensitive), yielding the two-digit group values as
(r, g, b); every other string yields (0, 0, 0).  The function is total, so
`applyColorMap` always completes, falling back to a black accent color on
malformed input. -/
theorem hexToRgb_matches_spec (s : String) :
    hexToRgb s = if specHexAccepts s then specHexValue s else ⟨0, 0, 0⟩ := by
  unfold hexToRgb specHexAccepts specHexValue
  rw [stripHash_eq_specStrip]
  generalize specStrip s.data = cs
  rcases cs with _ | ⟨a1, _ | ⟨a2, _ | ⟨a3, _ | ⟨a4, _ | ⟨a5, _ | ⟨a6, _ | ⟨a7, rest⟩⟩⟩⟩⟩⟩⟩
  · simp [matchHexBody]
  · simp [matchHexBody]
  · simp [matchHexBody]
  · simp [matchHexBody]
  · simp [matchHexBody]
  · simp [matchHexBody]
  · cases h1 : hexDigit a1 <;> cases h2 : hexDigit a2 <;> cases h3 : hexDigit a3 <;>
      cases h4 : hexDigit a4 <;> cases h5 : hexDigit a5 <;> cases h6 : hexDigit a6 <;>
      simp [matchHexBody, h1, h2, h3, h4, h5, h6]
  · have hlen : ¬((a1 :: a2 :: a3 :: a4 :: a5 :: a6 :: a7 :: rest).length = 6) := by
      simp only [List.length_cons]
      omega
    simp [matchHexBody, hlen]

end Ditter

namespace Ditter

/-- Claim C5: the wheel-zoom update keeps the world point under the cursor
fixed on screen: the world point that mapped to the cursor position under the
old camera maps to the cursor position under the new camera, for any camera
with `z` in `[MIN_ZOOM, MAX_ZOOM]`, any cursor position, and either zoom
direction. -/
theorem zoom_keeps_cursor_point_fixed (cam : Camera) (cx cy : ℚ) (zoomIn : Bool)
    (hz1 : MIN_ZOOM ≤ cam.z) (hz2 : cam.z ≤ MAX_ZOOM) :
    screenOf (wheelZoom cam cx cy zoomIn) (worldOf cam (cx, cy)) = (cx, cy) := by
  have hz : cam.z ≠ 0 := by
    intro h0
    rw [h0] at hz1
    norm_num [MIN_ZOOM] at hz1
  unfold screenOf worldOf wheelZoom
  simp only
  refine Prod.ext ?_ ?_
  · show (cx - cam.x) / cam.z * (min MAX_ZOOM (max MIN_ZOOM
      (cam.z * if zoomIn then ZOOM_FACTOR else 1 / ZOOM_FACTOR))) +
      (cx - (cx - cam.x) * (min MAX_ZOOM (max MIN_ZOOM
        (cam.z * if zoomIn then ZOOM_FACTOR else 1 / ZOOM_FACTOR)) / cam.z)) = cx
    field_simp
  · show (cy - cam.y) / cam.z * (min MAX_ZOOM (max MIN_ZOOM
      (cam.z * if zoomIn then ZOOM_FACTOR else 1 / ZOOM_FACTOR))) +
      (cy - (cy - cam.y) * (min MAX_ZOOM (max MIN_ZOOM
        (cam.z * if zoomIn then ZOOM_FACTOR else 1 / ZOOM_FACTOR)) / cam.z)) = cy
    field_simp

/-- One camera operation preserves the zoom bounds. -/
theorem applyCamOp_zoom_bounds (cam : Camera) (op : CamOp)
    (hz : MIN_ZOOM ≤ cam.z ∧ cam.z ≤ MAX_ZOOM) :
    MIN_ZOOM ≤ (applyCamOp cam op).z ∧ (applyCamOp cam op).z ≤ MAX_ZOOM := by
  cases op with
  | pan dx dy => exact hz
  | zoomAt cx cy zoomIn =>
    unfold applyCamOp wheelZoom
    constructor
    · exact le_min (by norm_num [MIN_ZOOM, MAX_ZOOM]) (le_max_left _ _)
    · exact min_le_left _ _
  | resetZoom =>
    unfold applyCamOp
    norm_num [MIN_ZOOM, MAX_ZOOM]

/-- Claim C8: starting from the initial camera (`z = 1`), every sequence of
camera operations — pan, wheel zoom, zoom reset — leaves the zoom inside
`[MIN_ZOOM, MAX_ZOOM] = [0.1, 16]`: the zoom range is a reachable-state
invariant of the camera. -/
theorem camera_zoom_invariant (vw vh : ℚ) (ops : List CamOp) :
    MIN_ZOOM ≤ (ops.foldl applyCamOp (initialCamera vw vh)).z ∧
      (ops.foldl applyCamOp (initialCamera vw vh)).z ≤ MAX_ZOOM := by
  refine foldl_pres applyCamOp
    (fun cam => MIN_ZOOM ≤ cam.z ∧ cam.z ≤ MAX_ZOOM) ops (initialCamera vw vh)
    ?_ ?_
  · norm_num [initialCamera, MIN_ZOOM, MAX_ZOOM]
  · intro cam op _ hz
    exact applyCamOp_zoom_bounds cam op hz

/-- Claim C9: during a drag, every pointer-move event teleports the body to
exactly `startBodyPos + (screenPos - startScreenPos) / z`: after any sequence
of moves ending with event `e`, the body position is determined by `e` alone
(no damping, no dependence on the intermediate moves or the previous body
position). -/
theorem drag_teleport_tracks_pointer (sx sy bx bv z0x z0y z : ℚ)
    (es : List (ℚ × ℚ)) (e : ℚ × ℚ) (pos : ℚ × ℚ) :
    (es ++ [e]).foldl
        (handlePointerMove (handlePointerDown (sx, sy) (bx, bv)) (some ⟨z0x, z0y, z⟩))
        pos =
      (bx + (e.1 - sx) / z, bv + (e.2 - sy) / z) := by
  rw [List.foldl_append, List.foldl_cons, List.foldl_nil]
  rfl

/-- Claim C10: the draft `applyColorMap` variant parses its `bgColor` argument
but never applies it to any pixel: the output bitmap is identical for any two
background colors, including malformed or absent ones. -/
theorem colorMapDraft_independent_of_bg (img : ImageData) (a : String)
    (bg1 bg2 : Option String) :
    applyColorMapDraft img a bg1 = applyColorMapDraft img a bg2 := rfl

end Ditter

namespace Ditter

/-- Witness for claim C1 at a concrete 2×2 mid-gray opaque bitmap and
threshold 128. -/
theorem dither_output_is_one_bit_witness :
    (∀ j, j < gray2x2.width * gray2x2.height * 4 →
      0 ≤ gray2x2.data j ∧ gray2x2.data j ≤ 255) ∧
    ((∀ p, p < gray2x2.width * gray2x2.height →
      ((applyAtkinsonDither gray2x2 128).data (4 * p) =
          (applyAtkinsonDither gray2x2 128).data (4 * p + 1) ∧
        (applyAtkinsonDither gray2x2 128).data (4 * p + 1) =
          (applyAtkinsonDither gray2x2 128).data (4 * p + 2)) ∧
      ((applyAtkinsonDither gray2x2 128).data (4 * p) = 0 ∨
        (applyAtkinsonDither gray2x2 128).data (4 * p) = 255)) ∧
    (∀ j, j < gray2x2.width * gray2x2.height * 4 →
      0 ≤ (applyAtkinsonDither gray2x2 128).data j ∧
        (applyAtkinsonDither gray2x2 128).data j ≤ 255)) :=
  ⟨by decide, dither_output_is_one_bit gray2x2 128 (by decide)⟩

/-- Witness for the amended claim C2 at the 1×1 black bitmap and the dark
accent color `#0000ff` (red component 0 < 128). -/
theorem colorMap_idempotent_witness :
    ((∀ j, j < blackPixel1.width * blackPixel1.height * 4 →
        blackPixel1.data j = 0 ∨ blackPixel1.data j = 255) ∧
      (hexToRgb "#0000ff").r < 128) ∧
    applyColorMap (applyColorMap blackPixel1 "#0000ff") "#0000ff" =
      applyColorMap blackPixel1 "#0000ff" :=
  ⟨⟨by decide, by decide⟩,
    colorMap_idempotent_for_dark_accent blackPixel1 "#0000ff" (by decide) (by decide)⟩

/-- Witness for the amended claim C3 at a 2×2 uniform bitmap of value 100 and
threshold 128. -/
theorem uniform_dither_amended_witness :
    ((1 : Nat) ≤ 2) ∧
    (((applyAtkinsonDither (uniformImg 2 2 100) 128).data 0 =
        if (100 : ℚ) < 128 then 0 else 255) ∧
      ((0 : ℚ) < 128 → ∀ j, (applyAtkinsonDither (uniformImg 2 2 0) 128).data j = 0) ∧
      ((128 : ℚ) ≤ 255 → ∀ j, (applyAtkinsonDither (uniformImg 2 2 255) 128).data j = 255)) :=
  ⟨by norm_num, uniform_dither_amended 2 2 100 128 (by norm_num) (by norm_num)⟩

/-- Witness for claim C4 at the in-bounds pixel (1, 1) of a 3×3 buffer. -/
theorem dither_step_spec_witness :
    ((1 : Nat) < 3) ∧
    ditherStep 3 3 128 (fun _ => (100 : ℚ)) 1 1 =
      ditherStepSpec 3 3 128 (fun _ => (100 : ℚ)) 1 1 :=
  ⟨by norm_num,
    dither_step_matches_kernel_spec 3 3 128 (fun _ => (100 : ℚ)) 1 1 (by norm_num)
      (by norm_num)⟩

/-- Witness for claim C5 at the camera `(0, 0, 1)` with cursor `(5, 7)`,
zooming in. -/
theorem zoom_fixed_point_witness :
    (MIN_ZOOM ≤ (1 : ℚ) ∧ (1 : ℚ) ≤ MAX_ZOOM) ∧
    screenOf (wheelZoom ⟨0, 0, 1⟩ 5 7 true) (worldOf ⟨0, 0, 1⟩ (5, 7)) = (5, 7) :=
  ⟨⟨by norm_num [MIN_ZOOM], by norm_num [MAX_ZOOM]⟩,
    zoom_keeps_cursor_point_fixed ⟨0, 0, 1⟩ 5 7 true (by norm_num [MIN_ZOOM])
      (by norm_num [MAX_ZOOM])⟩

/-- Witness for claim C6 at the 1×1 black bitmap: its pixel tests as black
and receives alpha 255. -/
theorem colorMap_mapping_witness :
    ((0 : Nat) < blackPixel1.width * blackPixel1.height ∧
      blackPixel1.data (4 * 0) < 128) ∧
    (applyColorMap blackPixel1 "#0099ff").data (4 * 0 + 3) = 255 :=
  ⟨⟨by decide, by decide⟩,
    ((colorMap_pointwise_mapping.1 blackPixel1 "#0099ff" 0 (by decide)).1 (by decide)).2.2.2⟩

end Ditter
